import Mathlib

set_option autoImplicit false

/-!
Shallow embedding of `src/streamlit_app.py` (the Liga Kampung score card app).

The program keeps one SQLite table `score_card` with columns
`id INTEGER PRIMARY KEY AUTOINCREMENT, contestant_name, contestant_id,
total_tops, total_penalty, description`.  We model SQLite values as `Value`
(integer, text or NULL), stored rows as `Row` (the primary key `id` is always
an integer in a stored row), and the partial records coming from Streamlit's
`data_editor` session state as `Delta` (each field independently absent).

Durability is commit-gated: `update_data` runs its statements on the
connection's pending (uncommitted) state and only `conn.commit()` at the end
publishes them; a Python exception raised anywhere in the function skips the
commit, so the durable table keeps its pre-batch contents.  `Conn` carries
both states explicitly.
-/

namespace LigaKampung

/-- A SQLite value as it appears in the `score_card` table: an integer, a
piece of text, or NULL. -/
inductive Value where
  | vint (n : Int)
  | vtext (s : String)
  | vnull
deriving DecidableEq, Repr

/-- One stored row of `score_card`.  `id` is the INTEGER PRIMARY KEY and is
always an integer in a stored row; the other five columns are unconstrained
SQLite values. -/
structure Row where
  id : Int
  contestant_name : Value
  contestant_id : Value
  total_tops : Value
  total_penalty : Value
  description : Value
deriving DecidableEq, Repr

/-- A Python dict holding a subset of the six columns: the shape of an entry
of `edited_rows` / `added_rows` in `st.session_state.score_card`.  A `none`
field is a key absent from the dict. -/
structure Delta where
  id : Option Value := none
  contestant_name : Option Value := none
  contestant_id : Option Value := none
  total_tops : Option Value := none
  total_penalty : Option Value := none
  description : Option Value := none
deriving DecidableEq, Repr

/-- A fully bound parameter set for one SQL statement: every column has an
explicit value (possibly NULL).  This is the shape of `row_dict` after
`row_dict.update(delta)` and of `defaultdict(lambda: None, row)`. -/
structure BRow where
  id : Value
  contestant_name : Value
  contestant_id : Value
  total_tops : Value
  total_penalty : Value
  description : Value
deriving DecidableEq, Repr

/-- The `score_card` table together with its AUTOINCREMENT sequence
(`sqlite_sequence` entry): the largest rowid ever recorded.  A fresh table
has `seq = 0`. -/
structure DB where
  rows : List Row
  seq : Int
deriving DecidableEq, Repr

/-- Well-formedness maintained by SQLite's AUTOINCREMENT: every rowid in the
table is bounded by the recorded sequence value. -/
def DB.wf (t : DB) : Prop := ∀ r ∈ t.rows, r.id ≤ t.seq

instance (t : DB) : Decidable t.wf := by unfold DB.wf; infer_instance

/-- The two failure classes of the app: a stale row position (Python
`IndexError` from `df.iloc[i]` / `KeyError` from `df.loc[i, "id"]`), and any
storage-layer failure (a `sqlite3` error such as an IntegrityError). -/
inductive Err where
  | staleReference
  | persistence
deriving DecidableEq, Repr

/-- The Python code `row_dict = df.iloc[i].to_dict(); row_dict.update(delta)`:
overlay the delta's present fields onto the snapshot row (delta wins).  The
snapshot row's `id` survives only when the delta has no `id` key. -/
def overlay (r : Row) (d : Delta) : BRow where
  id := d.id.getD (Value.vint r.id)
  contestant_name := d.contestant_name.getD r.contestant_name
  contestant_id := d.contestant_id.getD r.contestant_id
  total_tops := d.total_tops.getD r.total_tops
  total_penalty := d.total_penalty.getD r.total_penalty
  description := d.description.getD r.description

/-- The SET clause of the staged UPDATE: it assigns the five non-key columns
and leaves `id` alone (the statement has no `SET id = ...`). -/
def setFields (r : Row) (b : BRow) : Row where
  id := r.id
  contestant_name := b.contestant_name
  contestant_id := b.contestant_id
  total_tops := b.total_tops
  total_penalty := b.total_penalty
  description := b.description

/-- One `UPDATE score_card SET ... WHERE id = :id` execution: every stored row
whose integer id equals the bound `:id` receives the new field values.  A
non-integer bound id (NULL, text) matches no row. -/
def applyUpdate (b : BRow) (rows : List Row) : List Row :=
  rows.map fun r => if Value.vint r.id = b.id then setFields r b else r

/-- The loop `for i, delta in deltas.items(): rows.append(...)` building the
UPDATE parameter list before `executemany` runs.  A position outside the
snapshot raises (pandas `IndexError`), so no statement of the batch has been
executed yet when this fails. -/
def buildUpdateRows (df : List Row) : List (Nat × Delta) → Except Err (List BRow)
  | [] => .ok []
  | (i, d) :: rest =>
    match df[i]? with
    | none => .error .staleReference
    | some r => (buildUpdateRows df rest).map fun brs => overlay r d :: brs

/-- The `cursor.executemany(UPDATE ...)` call: every staged UPDATE runs in
order on the pending table. -/
def applyUpdates (brs : List BRow) (rows : List Row) : List Row :=
  brs.foldl (fun rs b => applyUpdate b rs) rows

/-- The generator `defaultdict(lambda: None, row)`: an absent key is bound as
NULL, so the INSERT statement always binds all six columns. -/
def resolveDelta (d : Delta) : BRow where
  id := d.id.getD Value.vnull
  contestant_name := d.contestant_name.getD Value.vnull
  contestant_id := d.contestant_id.getD Value.vnull
  total_tops := d.total_tops.getD Value.vnull
  total_penalty := d.total_penalty.getD Value.vnull
  description := d.description.getD Value.vnull

/-- One `INSERT INTO score_card (id, ...) VALUES (:id, ...)` execution.
Binding NULL to the INTEGER PRIMARY KEY makes SQLite auto-assign `seq + 1`
and advance the sequence; an explicit integer id collides with an existing
row (IntegrityError) or is stored as given, raising the sequence to at least
that id; a non-integer id is a datatype mismatch.  `mkRow` is the stored row
a successful INSERT of `b` produces when the key resolves to `k`. -/
def mkRow (k : Int) (b : BRow) : Row where
  id := k
  contestant_name := b.contestant_name
  contestant_id := b.contestant_id
  total_tops := b.total_tops
  total_penalty := b.total_penalty
  description := b.description

/-- One INSERT execution, dispatching on the bound id value as described
above `mkRow`. -/
def applyInsert (t : DB) (b : BRow) : Except Err DB :=
  match b.id with
  | Value.vnull => .ok ⟨t.rows ++ [mkRow (t.seq + 1) b], t.seq + 1⟩
  | Value.vint k =>
    if t.rows.any (fun r => r.id == k) then .error .persistence
    else .ok ⟨t.rows ++ [mkRow k b], max t.seq k⟩
  | Value.vtext _ => .error .persistence

/-- The `cursor.executemany(INSERT ...)` call: rows run one by one; the first
failing INSERT aborts the call, leaving the earlier ones executed on the
(uncommitted) pending state. -/
def runInserts : List BRow → DB → DB × Option Err
  | [], t => (t, none)
  | b :: bs, t =>
    match applyInsert t b with
    | .error e => (t, some e)
    | .ok t2 => runInserts bs t2

/-- One `DELETE FROM score_card WHERE id = :id` execution: removes every row
with the bound id. -/
def applyDelete (k : Int) (rows : List Row) : List Row :=
  rows.filter fun r => r.id != k

/-- The `cursor.executemany(DELETE ...)` call over the generator
`({"id": int(df.loc[i, "id"])} for i in deleted_rows)`: for each position the
generator looks the id up in the snapshot (a stale position raises `KeyError`
before that DELETE executes) and the DELETE removes the rows with that id. -/
def runDeletes (df : List Row) : List Nat → DB → DB × Option Err
  | [], t => (t, none)
  | i :: is, t =>
    match df[i]? with
    | none => (t, some .staleReference)
    | some r => runDeletes df is { t with rows := applyDelete r.id t.rows }

/-- The `st.session_state.score_card` change batch: `edited_rows` is a dict
from row position to a delta (listed in insertion order), `added_rows` a list
of partial records, `deleted_rows` a list of row positions. -/
structure Changes where
  edited_rows : List (Nat × Delta)
  added_rows : List Delta
  deleted_rows : List Nat
deriving DecidableEq, Repr

/-- A SQLite connection: the durable (committed) table contents and the
pending state of the open transaction.  Statements mutate `pending`;
`conn.commit()` copies `pending` into `durable`. -/
structure Conn where
  durable : DB
  pending : DB
deriving DecidableEq, Repr

/-- A newly opened connection: nothing pending beyond the durable state. -/
def Conn.fresh (t : DB) : Conn := ⟨t, t⟩

/-- The function `update_data(conn, df, changes)` of `src/streamlit_app.py`.
`df` is the snapshot loaded by `load_data` before the batch accumulated (at
the call site `changes` is `st.session_state.score_card`, which is also what
the edits phase reads).  Each phase is guarded by Python truthiness of the
corresponding batch part; a raised exception propagates, skipping
`conn.commit()`, so on error the durable table is untouched while `pending`
holds whatever statements had executed.  `stageEdits` is the guarded edits
phase `if changes["edited_rows"]: ...build rows...; executemany(UPDATE ...)`
up to the point where the parameter list is fully built. -/
def stageEdits (df : List Row) (changes : Changes) : Except Err (List BRow) :=
  if changes.edited_rows.isEmpty then .ok [] else buildUpdateRows df changes.edited_rows

/-- The guarded insert phase `if changes["added_rows"]: cursor.executemany(INSERT ...)`. -/
def insertPhase (changes : Changes) (t : DB) : DB × Option Err :=
  if changes.added_rows.isEmpty then (t, none)
  else runInserts (changes.added_rows.map resolveDelta) t

/-- The guarded delete phase `if changes["deleted_rows"]: cursor.executemany(DELETE ...)`. -/
def deletePhase (df : List Row) (changes : Changes) (t : DB) : DB × Option Err :=
  if changes.deleted_rows.isEmpty then (t, none)
  else runDeletes df changes.deleted_rows t

/-- Main body of `update_data`, continued from the comment above `stageEdits`:
edits phase, insert phase, delete phase, then `conn.commit()`. -/
def update_data (df : List Row) (changes : Changes) (c : Conn) : Conn × Option Err :=
  match stageEdits df changes with
  | .error e => (c, some e)
  | .ok brs =>
    match insertPhase changes { c.pending with rows := applyUpdates brs c.pending.rows } with
    | (t2, some e) => ({ c with pending := t2 }, some e)
    | (t2, none) =>
      match deletePhase df changes t2 with
      | (t3, some e) => ({ c with pending := t3 }, some e)
      | (t3, none) => (⟨t3, t3⟩, none)

/-- The column list hard-coded in `load_data`'s `pd.DataFrame(...)` call; it
coincides with the `SELECT *` column order of the table. -/
def score_card_columns : List String :=
  ["id", "contestant_name", "contestant_id", "total_tops", "total_penalty", "description"]

/-- The DataFrame `load_data` returns: named columns plus the fetched rows in
table order. -/
structure Frame where
  columns : List String
  rows : List Row
deriving DecidableEq, Repr

/-- The `cursor.execute("SELECT * FROM score_card"); cursor.fetchall()` pair:
it fails (an exception the bare `except:` catches) exactly when the table is
unavailable — `none` models a store on which the query fails, e.g. the table
was never created — and otherwise yields every row in order. -/
def selectAll : Option DB → Except Unit (List Row)
  | none => .error ()
  | some t => .ok t.rows

/-- The function `load_data(conn)` of `src/streamlit_app.py`: `None` when the
query fails, otherwise the full table as a DataFrame with the six named
columns. -/
def load_data (s : Option DB) : Option Frame :=
  match selectAll s with
  | .error _ => none
  | .ok data => some ⟨score_card_columns, data⟩

/-- A freshly created SQLite database has no `score_card` rows and sequence 0. -/
def emptyDB : DB := ⟨[], 0⟩

/-- The parameter sets of the seed INSERT in `initialize_data`: the statement
names the five non-key columns, so `id` is bound as NULL (auto-assign), and
each contestant starts with zero tops, zero penalties and an empty note. -/
def seedRowsParams : List BRow :=
  [⟨Value.vnull, Value.vtext "Azrai", Value.vint 2501, Value.vint 0, Value.vint 0, Value.vtext ""⟩,
   ⟨Value.vnull, Value.vtext "Fais", Value.vint 2502, Value.vint 0, Value.vint 0, Value.vtext ""⟩,
   ⟨Value.vnull, Value.vtext "Avish", Value.vint 2503, Value.vint 0, Value.vint 0, Value.vtext ""⟩,
   ⟨Value.vnull, Value.vtext "Clarence", Value.vint 2504, Value.vint 0, Value.vint 0, Value.vtext ""⟩,
   ⟨Value.vnull, Value.vtext "Shah", Value.vint 2505, Value.vint 0, Value.vint 0, Value.vtext ""⟩,
   ⟨Value.vnull, Value.vtext "Shakel", Value.vint 2506, Value.vint 0, Value.vint 0, Value.vtext ""⟩,
   ⟨Value.vnull, Value.vtext "Shaa", Value.vint 2507, Value.vint 0, Value.vint 0, Value.vtext ""⟩,
   ⟨Value.vnull, Value.vtext "Joe", Value.vint 2508, Value.vint 0, Value.vint 0, Value.vtext ""⟩,
   ⟨Value.vnull, Value.vtext "Meng", Value.vint 2509, Value.vint 0, Value.vint 0, Value.vtext ""⟩,
   ⟨Value.vnull, Value.vtext "Jien", Value.vint 2510, Value.vint 0, Value.vint 0, Value.vtext ""⟩,
   ⟨Value.vnull, Value.vtext "Paan", Value.vint 2511, Value.vint 0, Value.vint 0, Value.vtext ""⟩,
   ⟨Value.vnull, Value.vtext "Fatin", Value.vint 2512, Value.vint 0, Value.vint 0, Value.vtext ""⟩,
   ⟨Value.vnull, Value.vtext "Perong", Value.vint 2513, Value.vint 0, Value.vint 0, Value.vtext ""⟩,
   ⟨Value.vnull, Value.vtext "Oliver", Value.vint 2514, Value.vint 0, Value.vint 0, Value.vtext ""⟩]

/-- The function `initialize_data(conn)`: `CREATE TABLE IF NOT EXISTS` (reuse
the existing table when there is one, otherwise make an empty one), then run
the seed INSERT and commit.  The seed INSERT binds no id and cannot fail. -/
def initialize_data (s : Option DB) : Option DB :=
  some (runInserts seedRowsParams (s.getD emptyDB)).1

/-- The filesystem as `connect_db` sees it: either the database file
`scorecard.db` does not exist, or it exists and holds a store (`none` inside
`file` models an existing file whose `score_card` table was never created).  -/
inductive Env where
  | noFile
  | file (s : Option DB)
deriving DecidableEq, Repr

/-- The function `connect_db()`: check `DB_FILENAME.exists()` first, then
`sqlite3.connect` (which creates an empty database file when absent), and
report `db_was_just_created = not db_already_exists`. -/
def connect_db : Env → Env × Bool
  | .noFile => (.file none, true)
  | .file s => (.file s, false)

/-- The module-level bootstrap of the page: `conn, db_was_just_created =
connect_db()` followed by `if db_was_just_created: initialize_data(conn)`. -/
def bootstrap (env : Env) : Env :=
  match connect_db env with
  | (.noFile, _) => .noFile
  | (.file s, created) => if created then .file (initialize_data s) else .file s

end LigaKampung

namespace LigaKampung

/-! ### Concrete fixtures used by witnesses -/

/-- A one-row table used by several witnesses. -/
def rowA : Row := ⟨1, Value.vtext "A", Value.vint 2501, Value.vint 0, Value.vint 0, Value.vtext ""⟩

/-- A second row, with id 2. -/
def rowB : Row := ⟨2, Value.vtext "B", Value.vint 2502, Value.vint 1, Value.vint 0, Value.vtext ""⟩

/-- A one-row database containing `rowA`, with the sequence at 1. -/
def dbA : DB := ⟨[rowA], 1⟩

/-- A batch whose only operation edits row position 5, which `dbA`'s
snapshot does not have. -/
def staleEditBatch : Changes := ⟨[(5, {})], [], []⟩

/-! ### C9, C7, C6, C1 -/

/-- C9: applying the Reconciler with an empty batch (edited_rows, added_rows
and deleted_rows all empty) executes no update, insert or delete statement
and is an identity on the persisted table: the committed state equals the
pre-call state, every row unchanged. -/
theorem update_data_empty_batch_identity (df : List Row) (t : DB) :
    update_data df ⟨[], [], []⟩ (Conn.fresh t) = (Conn.fresh t, none) := rfl

/-- C7: the Reader fails (returns the `None` that the app treats as its
single broad `PersistenceError` class) exactly when the SELECT fails — in
this store model, when the `score_card` table is unavailable — and on
success returns the full table as an ordered tabular copy with columns
id, contestant_name, contestant_id, total_tops, total_penalty, description. -/
theorem load_data_reader_contract :
    load_data none = none ∧
    ∀ t : DB, load_data (some t) = some ⟨score_card_columns, t.rows⟩ :=
  ⟨rfl, fun _ => rfl⟩

/-- C6: bootstrapping against a nonexistent database file creates the table
and inserts exactly the 14 seed contestants with zero tops, zero penalties
and empty descriptions (with 14 distinct auto-assigned ids); bootstrapping
against an existing file — whatever its table state, including an existing
but empty table — changes nothing, because seeding is guarded by file
existence alone. -/
theorem bootstrap_seed_guarded_by_file_existence :
    (∃ t : DB, bootstrap Env.noFile = Env.file (some t) ∧
      t.rows.length = 14 ∧
      t.rows.map Row.contestant_name =
        [Value.vtext "Azrai", Value.vtext "Fais", Value.vtext "Avish", Value.vtext "Clarence",
         Value.vtext "Shah", Value.vtext "Shakel", Value.vtext "Shaa", Value.vtext "Joe",
         Value.vtext "Meng", Value.vtext "Jien", Value.vtext "Paan", Value.vtext "Fatin",
         Value.vtext "Perong", Value.vtext "Oliver"] ∧
      (∀ r ∈ t.rows, r.total_tops = Value.vint 0 ∧ r.total_penalty = Value.vint 0 ∧
        r.description = Value.vtext "") ∧
      (t.rows.map Row.id).Nodup) ∧
    ∀ s : Option DB, bootstrap (Env.file s) = Env.file s := by
  refine ⟨⟨(runInserts seedRowsParams emptyDB).1, rfl, by decide, by decide, by decide, by decide⟩,
    fun s => rfl⟩

/-- C1: the Reconciler is all-or-nothing at the durable level.  Statements
run inside the connection's single open transaction and `conn.commit()` is
only reached when every staged operation succeeded; any failure propagates
past the commit, so whenever `update_data` on a fresh connection reports an
error, the durable table still holds its pre-batch contents. -/
theorem update_data_atomicity (df : List Row) (ch : Changes) (t : DB) (c2 : Conn) (e : Err)
    (h : update_data df ch (Conn.fresh t) = (c2, some e)) : c2.durable = t := by
  unfold update_data at h
  split at h
  · injection h with h1 h2
    subst h1
    rfl
  · split at h
    · injection h with h1 h2
      subst h1
      rfl
    · split at h
      · injection h with h1 h2
        subst h1
        rfl
      · injection h with h1 h2
        cases h2

/-- Witness for C1: a batch editing a position outside the snapshot fails,
and the durable table is exactly the pre-batch one-row table. -/
theorem update_data_atomicity_witness :
    ((update_data dbA.rows staleEditBatch (Conn.fresh dbA)).1).durable = dbA :=
  update_data_atomicity dbA.rows staleEditBatch dbA
    (update_data dbA.rows staleEditBatch (Conn.fresh dbA)).1 Err.staleReference (by decide)

end LigaKampung

namespace LigaKampung

/-! ### C10: the Reconciler does not enforce id immutability -/

/-- C10: `row_dict.update(delta)` overwrites the snapshot row's id whenever
the delta carries an `id` key, and the staged UPDATE's WHERE clause then
targets that id `k`: the merged parameter set has id `k`, executing the
UPDATE rewrites exactly the rows whose id is `k` to the merged fields, and a
snapshot row whose id differs from `k` passes through unmodified. -/
theorem edit_id_overwrite (r : Row) (d : Delta) (k : Int) (rows : List Row)
    (hid : d.id = some (Value.vint k)) :
    (overlay r d).id = Value.vint k ∧
    applyUpdate (overlay r d) rows =
      rows.map (fun x => if x.id = k then setFields x (overlay r d) else x) ∧
    (r.id ≠ k → ∀ x ∈ rows, x.id = r.id → x ∈ applyUpdate (overlay r d) rows) := by
  have hb : (overlay r d).id = Value.vint k := by simp [overlay, hid]
  refine ⟨hb, ?_, ?_⟩
  · unfold applyUpdate
    rw [hb]
    apply List.map_congr_left
    intro x _
    by_cases hx : x.id = k
    · simp [hx]
    · simp [hx, fun h => hx (Value.vint.inj h)]
  · intro hr x hx hxid
    unfold applyUpdate
    rw [hb]
    refine List.mem_map.mpr ⟨x, hx, ?_⟩
    have : ¬ (Value.vint x.id = Value.vint k) := by
      intro h
      exact hr (hxid ▸ Value.vint.inj h)
    simp [this]

/-- A delta that does carry an id key (targeting id 2) besides a field edit. -/
def idelta : Delta := { id := some (Value.vint 2), total_tops := some (Value.vint 9) }

/-- Witness for C10: overlaying `idelta` onto the snapshot row `rowA`
(id 1) retargets the UPDATE at id 2, leaves `rowA` in place and rewrites
`rowB`. -/
theorem edit_id_overwrite_witness :
    (overlay rowA idelta).id = Value.vint 2 ∧
    applyUpdate (overlay rowA idelta) [rowA, rowB] =
      [rowA, rowB].map (fun x => if x.id = 2 then setFields x (overlay rowA idelta) else x) ∧
    (rowA.id ≠ 2 → ∀ x ∈ [rowA, rowB], x.id = rowA.id →
      x ∈ applyUpdate (overlay rowA idelta) [rowA, rowB]) :=
  edit_id_overwrite rowA idelta 2 [rowA, rowB] rfl

/-! ### C5: delete by identity, not position -/

/-- C5: a staged delete for a position `i` present in the snapshot removes
from the pending table exactly the records whose id equals `snapshot[i].id`:
the executed statement is a delete keyed by that id, a row survives it iff
its id differs, and the deletion commutes with any reordering (permutation)
of the live table's rows. -/
theorem delete_by_identity (df : List Row) (i : Nat) (r : Row) (hi : df[i]? = some r)
    (is : List Nat) (t : DB) :
    runDeletes df (i :: is) t = runDeletes df is ⟨applyDelete r.id t.rows, t.seq⟩ ∧
    (∀ x ∈ t.rows, x ∈ applyDelete r.id t.rows ↔ x.id ≠ r.id) ∧
    ∀ rows2 : List Row, t.rows.Perm rows2 →
      (applyDelete r.id t.rows).Perm (applyDelete r.id rows2) := by
  refine ⟨by simp [runDeletes, hi], ?_, ?_⟩
  · intro x hx
    unfold applyDelete
    rw [List.mem_filter]
    simp [hx, bne_iff_ne]
  · intro rows2 hperm
    exact hperm.filter _

end LigaKampung

namespace LigaKampung

/-- A five-row snapshot (ids 10..14) for the delete-by-identity witness. -/
def df5 : List Row :=
  [⟨10, Value.vtext "P0", Value.vint 2501, Value.vint 0, Value.vint 0, Value.vtext ""⟩,
   ⟨11, Value.vtext "P1", Value.vint 2502, Value.vint 0, Value.vint 0, Value.vtext ""⟩,
   ⟨12, Value.vtext "P2", Value.vint 2503, Value.vint 0, Value.vint 0, Value.vtext ""⟩,
   ⟨13, Value.vtext "P3", Value.vint 2504, Value.vint 0, Value.vint 0, Value.vtext ""⟩,
   ⟨14, Value.vtext "P4", Value.vint 2505, Value.vint 0, Value.vint 0, Value.vtext ""⟩]

/-- The live table holding the same five rows in a different order than the
snapshot `df5`. -/
def t5 : DB :=
  ⟨[⟨14, Value.vtext "P4", Value.vint 2505, Value.vint 0, Value.vint 0, Value.vtext ""⟩,
    ⟨12, Value.vtext "P2", Value.vint 2503, Value.vint 0, Value.vint 0, Value.vtext ""⟩,
    ⟨10, Value.vtext "P0", Value.vint 2501, Value.vint 0, Value.vint 0, Value.vtext ""⟩,
    ⟨13, Value.vtext "P3", Value.vint 2504, Value.vint 0, Value.vint 0, Value.vtext ""⟩,
    ⟨11, Value.vtext "P1", Value.vint 2502, Value.vint 0, Value.vint 0, Value.vtext ""⟩], 14⟩

/-- Witness for C5: deleting position 2 of the five-row snapshot removes
exactly the record with id 12 from the differently ordered live table. -/
theorem delete_by_identity_witness :
    runDeletes df5 [2] t5 =
      runDeletes df5 [] ⟨applyDelete (⟨12, Value.vtext "P2", Value.vint 2503, Value.vint 0,
        Value.vint 0, Value.vtext ""⟩ : Row).id t5.rows, t5.seq⟩ ∧
    (∀ x ∈ t5.rows,
      x ∈ applyDelete (⟨12, Value.vtext "P2", Value.vint 2503, Value.vint 0,
        Value.vint 0, Value.vtext ""⟩ : Row).id t5.rows ↔
      x.id ≠ (⟨12, Value.vtext "P2", Value.vint 2503, Value.vint 0,
        Value.vint 0, Value.vtext ""⟩ : Row).id) ∧
    ∀ rows2 : List Row, t5.rows.Perm rows2 →
      (applyDelete (⟨12, Value.vtext "P2", Value.vint 2503, Value.vint 0,
        Value.vint 0, Value.vtext ""⟩ : Row).id t5.rows).Perm
      (applyDelete (⟨12, Value.vtext "P2", Value.vint 2503, Value.vint 0,
        Value.vint 0, Value.vtext ""⟩ : Row).id rows2) :=
  delete_by_identity df5 2
    ⟨12, Value.vtext "P2", Value.vint 2503, Value.vint 0, Value.vint 0, Value.vtext ""⟩
    (by decide) [] t5

/-! ### C3: edit overlay staging -/

/-- Helper: a successful staging run pairs the j-th edit with the snapshot
row at its position, merged by `overlay`, at the j-th place of the parameter
list. -/
theorem buildUpdateRows_get (df : List Row) :
    ∀ (edits : List (Nat × Delta)) (brs : List BRow),
      buildUpdateRows df edits = .ok brs →
      ∀ (j i : Nat) (d : Delta), edits[j]? = some (i, d) →
        ∃ r : Row, df[i]? = some r ∧ brs[j]? = some (overlay r d) := by
  intro edits
  induction edits with
  | nil =>
    intro brs hok j i d hj
    simp at hj
  | cons p rest ih =>
    obtain ⟨i0, d0⟩ := p
    intro brs hok j i d hj
    unfold buildUpdateRows at hok
    cases hr0 : df[i0]? with
    | none => rw [hr0] at hok; cases hok
    | some r0 =>
      rw [hr0] at hok
      cases hrest : buildUpdateRows df rest with
      | error e => rw [hrest] at hok; simp [Except.map] at hok
      | ok brs2 =>
        rw [hrest] at hok
        simp only [Except.map] at hok
        injection hok with hok
        cases j with
        | zero =>
          simp at hj
          obtain ⟨hi0, hd0⟩ := hj
          subst hi0
          subst hd0
          exact ⟨r0, hr0, by rw [← hok]; simp⟩
        | succ j2 =>
          simp at hj
          obtain ⟨r, hr, hbr⟩ := ih brs2 hrest j2 i d hj
          exact ⟨r, hr, by rw [← hok]; simpa using hbr⟩

/-- C3: every edit `(position, delta)` of a successfully staged batch whose
position indexes a snapshot row stages (at the same place of the parameter
list) an update whose parameter set is the snapshot row with the delta's
fields overlaid: it is keyed by the snapshot row's id (the delta carries no
id key), a field absent from the delta keeps its snapshot value, and a field
present in the delta takes the delta's value. -/
theorem edit_overlay_staging (df : List Row) (edits : List (Nat × Delta)) (brs : List BRow)
    (hok : buildUpdateRows df edits = .ok brs)
    (j i : Nat) (d : Delta) (hj : edits[j]? = some (i, d)) (hid : d.id = none) :
    ∃ r : Row, df[i]? = some r ∧ brs[j]? = some (overlay r d) ∧
      (overlay r d).id = Value.vint r.id ∧
      ((d.contestant_name = none → (overlay r d).contestant_name = r.contestant_name) ∧
       (∀ v, d.contestant_name = some v → (overlay r d).contestant_name = v)) ∧
      ((d.contestant_id = none → (overlay r d).contestant_id = r.contestant_id) ∧
       (∀ v, d.contestant_id = some v → (overlay r d).contestant_id = v)) ∧
      ((d.total_tops = none → (overlay r d).total_tops = r.total_tops) ∧
       (∀ v, d.total_tops = some v → (overlay r d).total_tops = v)) ∧
      ((d.total_penalty = none → (overlay r d).total_penalty = r.total_penalty) ∧
       (∀ v, d.total_penalty = some v → (overlay r d).total_penalty = v)) ∧
      ((d.description = none → (overlay r d).description = r.description) ∧
       (∀ v, d.description = some v → (overlay r d).description = v)) := by
  obtain ⟨r, hr, hbr⟩ := buildUpdateRows_get df edits brs hok j i d hj
  refine ⟨r, hr, hbr, by simp [overlay, hid],
    ⟨fun h => by simp [overlay, h], fun v hv => by simp [overlay, hv]⟩,
    ⟨fun h => by simp [overlay, h], fun v hv => by simp [overlay, hv]⟩,
    ⟨fun h => by simp [overlay, h], fun v hv => by simp [overlay, hv]⟩,
    ⟨fun h => by simp [overlay, h], fun v hv => by simp [overlay, hv]⟩,
    ⟨fun h => by simp [overlay, h], fun v hv => by simp [overlay, hv]⟩⟩

/-- The spec's example snapshot row for the overlay property. -/
def row5az : Row := ⟨5, Value.vtext "Azrai", Value.vint 2501, Value.vint 3, Value.vint 1, Value.vtext ""⟩

/-- The spec's example edit: only total_tops changes, to 4. -/
def edit5 : Delta := { total_tops := some (Value.vint 4) }

/-- Witness for C3: staging the edit `{total_tops: 4}` against the snapshot
`[row5az]` merges it onto the row with id 5, keeping every other field. -/
theorem edit_overlay_staging_witness :
    ∃ r : Row, [row5az][0]? = some r ∧
      [overlay row5az edit5][0]? = some (overlay r edit5) ∧
      (overlay r edit5).id = Value.vint r.id ∧
      ((edit5.contestant_name = none → (overlay r edit5).contestant_name = r.contestant_name) ∧
       (∀ v, edit5.contestant_name = some v → (overlay r edit5).contestant_name = v)) ∧
      ((edit5.contestant_id = none → (overlay r edit5).contestant_id = r.contestant_id) ∧
       (∀ v, edit5.contestant_id = some v → (overlay r edit5).contestant_id = v)) ∧
      ((edit5.total_tops = none → (overlay r edit5).total_tops = r.total_tops) ∧
       (∀ v, edit5.total_tops = some v → (overlay r edit5).total_tops = v)) ∧
      ((edit5.total_penalty = none → (overlay r edit5).total_penalty = r.total_penalty) ∧
       (∀ v, edit5.total_penalty = some v → (overlay r edit5).total_penalty = v)) ∧
      ((edit5.description = none → (overlay r edit5).description = r.description) ∧
       (∀ v, edit5.description = some v → (overlay r edit5).description = v)) :=
  edit_overlay_staging [row5az] [(0, edit5)] [overlay row5az edit5] rfl 0 0 edit5 rfl rfl

end LigaKampung

namespace LigaKampung

/-! ### C2: stale-reference signalling -/

/-- A failing INSERT always fails with the storage-layer error class. -/
theorem applyInsert_error (t : DB) (b : BRow) (e : Err) (h : applyInsert t b = .error e) :
    e = Err.persistence := by
  unfold applyInsert at h
  split at h
  · simp at h
  · split at h
    · injection h with h2
      exact h2.symm
    · simp at h
  · injection h with h2
    exact h2.symm

/-- A failing insert batch always fails with the storage-layer error class. -/
theorem runInserts_error_persistence :
    ∀ (bs : List BRow) (t t2 : DB) (e : Err), runInserts bs t = (t2, some e) →
      e = Err.persistence := by
  intro bs
  induction bs with
  | nil =>
    intro t t2 e h
    simp [runInserts] at h
  | cons b bs ih =>
    intro t t2 e h
    unfold runInserts at h
    cases hA : applyInsert t b with
    | error e2 =>
      rw [hA] at h
      injection h with h1 h2
      injection h2 with h2
      exact h2 ▸ applyInsert_error t b e2 hA
    | ok t3 =>
      rw [hA] at h
      exact ih t3 t2 e h

/-- A failing insert phase always fails with the storage-layer error class. -/
theorem insertPhase_error (ch : Changes) (t t2 : DB) (e : Err)
    (h : insertPhase ch t = (t2, some e)) : e = Err.persistence := by
  unfold insertPhase at h
  split at h
  · injection h with h1 h2
    cases h2
  · exact runInserts_error_persistence _ t t2 e h

/-- The delete phase's outcome is determined by position validity: it
signals the stale-reference error iff some delete position is outside the
snapshot. -/
theorem runDeletes_snd (df : List Row) :
    ∀ (is : List Nat) (t : DB),
      (runDeletes df is t).2 =
        if ∀ i ∈ is, (df[i]?).isSome then none else some Err.staleReference := by
  intro is
  induction is with
  | nil => intro t; simp [runDeletes]
  | cons i is ih =>
    intro t
    unfold runDeletes
    cases hi : df[i]? with
    | none =>
      rw [if_neg]
      intro hall
      have h0 := hall i (List.mem_cons_self i is)
      rw [hi] at h0
      cases h0
    | some r =>
      rw [ih]
      by_cases hall : ∀ j ∈ is, (df[j]?).isSome
      · rw [if_pos hall, if_pos]
        intro j hj
        rcases List.mem_cons.mp hj with h | h
        · rw [h, hi]; rfl
        · exact hall j h
      · rw [if_neg hall, if_neg]
        intro hall2
        exact hall fun j hj => hall2 j (List.mem_cons_of_mem _ hj)

/-- Guarded form of `runDeletes_snd` for the whole delete phase. -/
theorem deletePhase_snd (df : List Row) (ch : Changes) (t : DB) :
    (deletePhase df ch t).2 =
      if ∀ i ∈ ch.deleted_rows, (df[i]?).isSome then none else some Err.staleReference := by
  unfold deletePhase
  split
  · rename_i h
    rw [List.isEmpty_iff] at h
    rw [h]
    simp
  · exact runDeletes_snd df ch.deleted_rows t

/-- Staging the edits either fails with the stale-reference error at some
out-of-snapshot position, or succeeds with every position in the snapshot. -/
theorem buildUpdateRows_classify (df : List Row) :
    ∀ edits : List (Nat × Delta),
      (buildUpdateRows df edits = .error Err.staleReference ∧
         ∃ p ∈ edits, df[p.1]? = none) ∨
      ((∃ brs, buildUpdateRows df edits = .ok brs) ∧
         ∀ p ∈ edits, (df[p.1]?).isSome) := by
  intro edits
  induction edits with
  | nil => exact Or.inr ⟨⟨[], rfl⟩, by simp⟩
  | cons p rest ih =>
    obtain ⟨i, d⟩ := p
    cases hi : df[i]? with
    | none =>
      left
      constructor
      · unfold buildUpdateRows
        rw [hi]
      · exact ⟨(i, d), List.mem_cons_self _ _, hi⟩
    | some r =>
      rcases ih with ⟨herr, p2, hp2, hnone⟩ | ⟨⟨brs, hok⟩, hall⟩
      · left
        constructor
        · unfold buildUpdateRows
          rw [hi, herr]
          rfl
        · exact ⟨p2, List.mem_cons_of_mem _ hp2, hnone⟩
      · right
        constructor
        · refine ⟨overlay r d :: brs, ?_⟩
          unfold buildUpdateRows
          rw [hi, hok]
          rfl
        · intro p2 hp2
          rcases List.mem_cons.mp hp2 with h | h
          · rw [h, hi]; rfl
          · exact hall p2 h

/-- Guarded form of `buildUpdateRows_classify` for the whole edits phase. -/
theorem stageEdits_classify (df : List Row) (ch : Changes) :
    (stageEdits df ch = .error Err.staleReference ∧
       ∃ p ∈ ch.edited_rows, df[p.1]? = none) ∨
    ((∃ brs, stageEdits df ch = .ok brs) ∧
       ∀ p ∈ ch.edited_rows, (df[p.1]?).isSome) := by
  unfold stageEdits
  split
  · rename_i h
    rw [List.isEmpty_iff] at h
    right
    refine ⟨⟨[], rfl⟩, ?_⟩
    rw [h]
    simp
  · exact buildUpdateRows_classify df ch.edited_rows

end LigaKampung

namespace LigaKampung

/-- A batch whose insert duplicates an existing id (so the INSERT phase
fails) and whose only delete targets position 5, absent from `dbA`'s
one-position snapshot. -/
def dupInsertStaleDeleteBatch : Changes :=
  ⟨[], [{ id := some (Value.vint 1) }], [5]⟩

/-- Counterexample to C2 as stated: this batch contains a delete whose row
position is not present in the snapshot, yet the Reconciler signals the
generic persistence failure, not the stale-reference one — the insert phase
fails first and the delete phase never runs. -/
theorem stale_delete_masked_by_insert_failure :
    (∃ i ∈ dupInsertStaleDeleteBatch.deleted_rows, dbA.rows[i]? = (none : Option Row)) ∧
    (update_data dbA.rows dupInsertStaleDeleteBatch (Conn.fresh dbA)).2 = some Err.persistence ∧
    (update_data dbA.rows dupInsertStaleDeleteBatch (Conn.fresh dbA)).2 ≠
      some Err.staleReference := by
  refine ⟨⟨5, by decide, by decide⟩, by decide, by decide⟩

/-- Reduction of `update_data` once the edits phase staged successfully. -/
theorem update_data_ok (df : List Row) (ch : Changes) (c : Conn) (brs : List BRow)
    (hok : stageEdits df ch = .ok brs) :
    update_data df ch c =
      match insertPhase ch { c.pending with rows := applyUpdates brs c.pending.rows } with
      | (t2, some e) => ({ c with pending := t2 }, some e)
      | (t2, none) =>
        match deletePhase df ch t2 with
        | (t3, some e) => ({ c with pending := t3 }, some e)
        | (t3, none) => (⟨t3, t3⟩, none) := by
  unfold update_data
  rw [hok]

/-- C2 as amended: whenever the Reconciler does not fail with the generic
persistence error (in particular whenever every staged insert succeeds), it
signals the stale-reference error — a failure mode distinct from the
persistence one — exactly when the batch contains an edit or delete whose
row position is not present in the snapshot; in particular positions present
in the snapshot never produce it. -/
theorem stale_reference_signalling (df : List Row) (ch : Changes) (c : Conn)
    (hnp : (update_data df ch c).2 ≠ some Err.persistence) :
    ((∃ p ∈ ch.edited_rows, df[p.1]? = none) ∨ (∃ i ∈ ch.deleted_rows, df[i]? = none)) ↔
      (update_data df ch c).2 = some Err.staleReference := by
  rcases stageEdits_classify df ch with ⟨herr, hex⟩ | ⟨⟨brs, hok⟩, hall⟩
  · have hu : update_data df ch c = (c, some Err.staleReference) := by
      unfold update_data
      rw [herr]
    refine iff_of_true (Or.inl hex) ?_
    rw [hu]
  · have hu0 := update_data_ok df ch c brs hok
    cases hins : insertPhase ch { c.pending with rows := applyUpdates brs c.pending.rows } with
    | mk t2 e2 =>
      rw [hins] at hu0
      cases e2 with
      | some e =>
        exfalso
        apply hnp
        have he : e = Err.persistence := insertPhase_error ch _ t2 e hins
        have hu : update_data df ch c = ({ c with pending := t2 }, some e) := hu0
        rw [hu, he]
      | none =>
        have hu1 : update_data df ch c =
            (match deletePhase df ch t2 with
             | (t3, some e) => ({ c with pending := t3 }, some e)
             | (t3, none) => ((⟨t3, t3⟩ : Conn), none)) := hu0
        have hsnd := deletePhase_snd df ch t2
        cases hdel : deletePhase df ch t2 with
        | mk t3 e3 =>
          rw [hdel] at hsnd hu1
          by_cases hvalid : ∀ i ∈ ch.deleted_rows, (df[i]?).isSome
          · rw [if_pos hvalid] at hsnd
            simp only at hsnd
            subst hsnd
            have hu : update_data df ch c = ((⟨t3, t3⟩ : Conn), none) := hu1
            rw [hu]
            simp only [ne_eq]
            constructor
            · rintro (⟨p, hp, hnone⟩ | ⟨i, hi2, hnone⟩)
              · have h0 := hall p hp
                rw [hnone] at h0
                cases h0
              · have h0 := hvalid i hi2
                rw [hnone] at h0
                cases h0
            · intro hcontra
              cases hcontra
          · rw [if_neg hvalid] at hsnd
            simp only at hsnd
            subst hsnd
            have hu : update_data df ch c =
                ({ c with pending := t3 }, some Err.staleReference) := hu1
            rw [hu]
            refine iff_of_true ?_ rfl
            right
            rw [not_forall] at hvalid
            obtain ⟨i, hi2⟩ := hvalid
            rw [Classical.not_imp] at hi2
            obtain ⟨hmem, hns⟩ := hi2
            refine ⟨i, hmem, ?_⟩
            cases h0 : df[i]? with
            | none => rfl
            | some r =>
              rw [h0] at hns
              exact absurd rfl hns

/-- Witness for the amended C2: a batch whose only operation edits the
out-of-snapshot position 5 signals exactly the stale-reference error. -/
theorem stale_reference_signalling_witness :
    ((∃ p ∈ staleEditBatch.edited_rows, dbA.rows[p.1]? = none) ∨
     (∃ i ∈ staleEditBatch.deleted_rows, dbA.rows[i]? = none)) ↔
      (update_data dbA.rows staleEditBatch (Conn.fresh dbA)).2 = some Err.staleReference :=
  stale_reference_signalling dbA.rows staleEditBatch (Conn.fresh dbA) (by decide)

end LigaKampung

namespace LigaKampung

/-! ### C4: insert defaulting and fresh auto-assigned ids -/

/-- C4: a successful insert phase appends exactly one stored row per partial
record, in batch order, after the existing rows.  In each stored row every
schema field absent from the partial is bound to an explicit NULL (via the
`defaultdict`), present fields keep their values, and when the partial has
no id (or an explicit NULL id) the auto-assigned id differs from the id of
every row existing when that insert runs — all prior rows and all earlier
inserts of the batch. -/
theorem insert_defaulting :
    ∀ (ds : List Delta) (t t2 : DB), t.wf →
      runInserts (ds.map resolveDelta) t = (t2, none) →
      ∃ new : List Row, t2.rows = t.rows ++ new ∧ new.length = ds.length ∧
        ∀ (j : Nat) (d0 : Delta), ds[j]? = some d0 →
          ∃ r0 : Row, new[j]? = some r0 ∧
            r0.contestant_name = d0.contestant_name.getD Value.vnull ∧
            r0.contestant_id = d0.contestant_id.getD Value.vnull ∧
            r0.total_tops = d0.total_tops.getD Value.vnull ∧
            r0.total_penalty = d0.total_penalty.getD Value.vnull ∧
            r0.description = d0.description.getD Value.vnull ∧
            (d0.id.getD Value.vnull = Value.vnull →
              ∀ x ∈ t.rows ++ new.take j, x.id ≠ r0.id) := by
  intro ds
  induction ds with
  | nil =>
    intro t t2 hwf hok
    simp only [List.map, runInserts] at hok
    injection hok with h1 h2
    subst h1
    exact ⟨[], by simp, rfl, by simp⟩
  | cons d ds ih =>
    intro t t2 hwf hok
    rw [List.map_cons] at hok
    unfold runInserts at hok
    split at hok
    · injection hok with h1 h2
      cases h2
    · rename_i t' heq
      unfold applyInsert at heq
      split at heq
      · -- auto-assigned id: NULL bound to the primary key
        rename_i hb
        injection heq with heq
        subst heq
        have hwf2 : DB.wf ⟨t.rows ++ [mkRow (t.seq + 1) (resolveDelta d)], t.seq + 1⟩ := by
          intro x hx
          rcases List.mem_append.mp hx with hx | hx
          · have := hwf x hx
            simp only
            omega
          · simp only [List.mem_singleton] at hx
            subst hx
            simp [mkRow]
        obtain ⟨new2, hrows, hlen, hfacts⟩ := ih _ t2 hwf2 hok
        refine ⟨mkRow (t.seq + 1) (resolveDelta d) :: new2, ?_, by simp [hlen], ?_⟩
        · rw [hrows]
          simp
        · intro j d0 hj
          cases j with
          | zero =>
            simp only [List.getElem?_cons_zero, Option.some.injEq] at hj
            subst hj
            refine ⟨mkRow (t.seq + 1) (resolveDelta d), by simp, rfl, rfl, rfl, rfl, rfl, ?_⟩
            intro hid x hx
            simp only [List.take_zero, List.append_nil] at hx
            have := hwf x hx
            simp only [mkRow]
            omega
          | succ j2 =>
            simp only [List.getElem?_cons_succ] at hj
            obtain ⟨r0, hr0, f1, f2, f3, f4, f5, ffresh⟩ := hfacts j2 d0 hj
            refine ⟨r0, by simpa using hr0, f1, f2, f3, f4, f5, ?_⟩
            intro hid x hx
            apply ffresh hid x
            simp only [List.take_succ_cons] at hx
            simp only
            rw [List.append_assoc] at *
            simpa using hx
      · -- explicit integer id
        rename_i k hb
        split at heq
        · cases heq
        · rename_i hnd
          injection heq with heq
          subst heq
          have hwf2 : DB.wf ⟨t.rows ++ [mkRow k (resolveDelta d)], max t.seq k⟩ := by
            intro x hx
            rcases List.mem_append.mp hx with hx | hx
            · have := hwf x hx
              simp only
              omega
            · simp only [List.mem_singleton] at hx
              subst hx
              simp [mkRow]
          obtain ⟨new2, hrows, hlen, hfacts⟩ := ih _ t2 hwf2 hok
          refine ⟨mkRow k (resolveDelta d) :: new2, ?_, by simp [hlen], ?_⟩
          · rw [hrows]
            simp
          · intro j d0 hj
            cases j with
            | zero =>
              simp only [List.getElem?_cons_zero, Option.some.injEq] at hj
              subst hj
              refine ⟨mkRow k (resolveDelta d), by simp, rfl, rfl, rfl, rfl, rfl, ?_⟩
              intro hid
              exfalso
              have hidr : (resolveDelta d).id = Value.vnull := hid
              rw [hb] at hidr
              cases hidr
            | succ j2 =>
              simp only [List.getElem?_cons_succ] at hj
              obtain ⟨r0, hr0, f1, f2, f3, f4, f5, ffresh⟩ := hfacts j2 d0 hj
              refine ⟨r0, by simpa using hr0, f1, f2, f3, f4, f5, ?_⟩
              intro hid x hx
              apply ffresh hid x
              simp only [List.take_succ_cons] at hx
              simp only
              rw [List.append_assoc] at *
              simpa using hx
      · -- text id: datatype mismatch, contradicts success
        simp at heq

end LigaKampung

namespace LigaKampung

/-- The spec's example insert partial record: only a contestant name. -/
def dNew : Delta := { contestant_name := some (Value.vtext "New") }

/-- The table obtained by inserting `dNew` into `dbA` (auto id 2). -/
def dbANew : DB := ⟨dbA.rows ++ [mkRow 2 (resolveDelta dNew)], 2⟩

/-- Witness for C4: inserting the partial record `{contestant_name: "New"}`
into the one-row table stores one row whose other fields are NULL and whose
auto-assigned id avoids every existing id. -/
theorem insert_defaulting_witness :
    ∃ new : List Row, dbANew.rows = dbA.rows ++ new ∧ new.length = [dNew].length ∧
      ∀ (j : Nat) (d0 : Delta), [dNew][j]? = some d0 →
        ∃ r0 : Row, new[j]? = some r0 ∧
          r0.contestant_name = d0.contestant_name.getD Value.vnull ∧
          r0.contestant_id = d0.contestant_id.getD Value.vnull ∧
          r0.total_tops = d0.total_tops.getD Value.vnull ∧
          r0.total_penalty = d0.total_penalty.getD Value.vnull ∧
          r0.description = d0.description.getD Value.vnull ∧
          (d0.id.getD Value.vnull = Value.vnull →
            ∀ x ∈ dbA.rows ++ new.take j, x.id ≠ r0.id) :=
  insert_defaulting [dNew] dbA dbANew (by decide) (by decide)

/-! ### C8: round-trip infrastructure

The round-trip property is proved by characterizing each phase of
`update_data` as a pure transformation: the staged updates become a pointwise
map over the table (each row receives at most one update because edit
positions are distinct and ids are distinct), the inserts append rows with
fresh ids, and the deletes become a filter by id; the composition is then a
single positional pass (`specSurvivors`) plus the appended inserts. -/

/-- The UPDATE parameter sets a successful edits phase stages: one `overlay`
per edit, in batch order. -/
def stagedUpdates (df : List Row) (edits : List (Nat × Delta)) : List BRow :=
  edits.filterMap fun p => (df[p.1]?).map fun r => overlay r p.2

/-- The cumulative effect of the whole UPDATE `executemany` on one stored
row: apply each staged parameter set in order whenever its id matches. -/
def updRow (brs : List BRow) (r : Row) : Row :=
  brs.foldl (fun x b => if Value.vint x.id = b.id then setFields x b else x) r

/-- The edit the batch holds for row position `j`, if any (dict lookup). -/
def editLookup (edits : List (Nat × Delta)) (j : Nat) : Option Delta :=
  (edits.find? fun p => p.1 == j).map Prod.snd

/-- What the batch leaves of the snapshot row at position `j`: the merged
record when an edit targets `j`, the row itself otherwise. -/
def expectedRow (edits : List (Nat × Delta)) (j : Nat) (r : Row) : Row :=
  match editLookup edits j with
  | some d => setFields r (overlay r d)
  | none => r

/-- Positional description of the table rows the batch leaves alive: walk the
snapshot, drop deleted positions, rewrite edited positions. -/
def specSurvivors (ch : Changes) : Nat → List Row → List Row
  | _, [] => []
  | j, r :: rs =>
    if j ∈ ch.deleted_rows then specSurvivors ch (j + 1) rs
    else expectedRow ch.edited_rows j r :: specSurvivors ch (j + 1) rs

/-- The rows a run of auto-assigning INSERTs appends: ids `seq+1, seq+2, …`
in batch order. -/
def autoRows (seq : Int) : List BRow → List Row
  | [] => []
  | b :: bs => mkRow (seq + 1) b :: autoRows (seq + 1) bs

/-- Executing the staged updates is a pointwise map over the table. -/
theorem applyUpdates_eq_map : ∀ (brs : List BRow) (rows : List Row),
    applyUpdates brs rows = rows.map (updRow brs) := by
  intro brs
  induction brs with
  | nil =>
    intro rows
    show rows = rows.map (updRow [])
    rw [show updRow [] = fun r => r from rfl]
    simp
  | cons b bs ih =>
    intro rows
    show applyUpdates bs (applyUpdate b rows) = _
    rw [ih, applyUpdate, List.map_map]
    apply List.map_congr_left
    intro r _
    rfl

/-- A row matched by none of the staged updates passes through unchanged. -/
theorem updRow_not_matching : ∀ (brs : List BRow) (x : Row),
    (∀ b ∈ brs, b.id ≠ Value.vint x.id) → updRow brs x = x := by
  intro brs
  induction brs with
  | nil => intro x _; rfl
  | cons b bs ih =>
    intro x h
    show updRow bs (if Value.vint x.id = b.id then setFields x b else x) = x
    rw [if_neg fun hh => h b (List.mem_cons_self _ _) hh.symm]
    exact ih x fun b2 hb2 => h b2 (List.mem_cons_of_mem _ hb2)

/-- Distinct positions of a table with pairwise-distinct ids hold rows with
distinct ids. -/
theorem nodup_ids_ne (df : List Row) (h : (df.map Row.id).Nodup)
    (i j : Nat) (x y : Row) (hi : df[i]? = some x) (hj : df[j]? = some y)
    (hij : i ≠ j) : x.id ≠ y.id := by
  intro hxy
  apply hij
  have hilen : i < df.length := by
    by_contra hlen
    rw [List.getElem?_eq_none (by omega)] at hi
    cases hi
  have hmi : (df.map Row.id)[i]? = some x.id := by
    rw [List.getElem?_map, hi]
    rfl
  have hmj : (df.map Row.id)[j]? = some y.id := by
    rw [List.getElem?_map, hj]
    rfl
  refine List.getElem?_inj (by simpa using hilen) h ?_
  rw [hmi, hmj, hxy]

/-- Every staged update comes from an edit of the batch. -/
theorem mem_stagedUpdates (df : List Row) (edits : List (Nat × Delta)) (b : BRow)
    (hb : b ∈ stagedUpdates df edits) :
    ∃ p ∈ edits, ∃ rp : Row, df[p.1]? = some rp ∧ b = overlay rp p.2 := by
  unfold stagedUpdates at hb
  rw [List.mem_filterMap] at hb
  obtain ⟨p, hp, hmap⟩ := hb
  rw [Option.map_eq_some'] at hmap
  obtain ⟨rp, hrp, hfb⟩ := hmap
  exact ⟨p, hp, rp, hrp, hfb.symm⟩

/-- The batch's effect on a row never rewrites its id. -/
theorem expectedRow_id (edits : List (Nat × Delta)) (j : Nat) (r : Row) :
    (expectedRow edits j r).id = r.id := by
  unfold expectedRow
  cases editLookup edits j <;> rfl

end LigaKampung

namespace LigaKampung

/-- Dict lookup at the head position. -/
theorem editLookup_cons_self (i : Nat) (d : Delta) (rest : List (Nat × Delta)) :
    editLookup ((i, d) :: rest) i = some d := by
  unfold editLookup
  rw [List.find?_cons_of_pos _ (by simp)]
  rfl

/-- Dict lookup skipping a head with a different position. -/
theorem editLookup_cons_ne (i j : Nat) (d : Delta) (rest : List (Nat × Delta))
    (h : i ≠ j) : editLookup ((i, d) :: rest) j = editLookup rest j := by
  unfold editLookup
  rw [List.find?_cons_of_neg _ (by simp [h])]

/-- Per-row effect of the staged updates: with valid, id-free, positionally
distinct edits over a table with distinct ids, the row at position `j`
receives exactly the edit targeting `j` (or none). -/
theorem updRow_expected (df : List Row) (hids : (df.map Row.id).Nodup) :
    ∀ edits : List (Nat × Delta),
      (∀ p ∈ edits, (df[p.1]?).isSome) →
      (∀ p ∈ edits, p.2.id = none) →
      (edits.map Prod.fst).Nodup →
      ∀ (j : Nat) (r : Row), df[j]? = some r →
        updRow (stagedUpdates df edits) r = expectedRow edits j r := by
  intro edits
  induction edits with
  | nil => intro _ _ _ j r _; rfl
  | cons p rest ih =>
    obtain ⟨i0, d0⟩ := p
    intro hpos hid hnd j r hr
    have hi0 : (df[i0]?).isSome = true := hpos (i0, d0) (List.mem_cons_self _ _)
    obtain ⟨r0, hr0⟩ := Option.isSome_iff_exists.mp hi0
    have hstag : stagedUpdates df ((i0, d0) :: rest) =
        overlay r0 d0 :: stagedUpdates df rest := by
      unfold stagedUpdates
      rw [List.filterMap_cons]
      rw [hr0]
      rfl
    have hd0 : d0.id = none := hid (i0, d0) (List.mem_cons_self _ _)
    have hb0id : (overlay r0 d0).id = Value.vint r0.id := by simp [overlay, hd0]
    rw [hstag]
    show updRow (stagedUpdates df rest)
        (if Value.vint r.id = (overlay r0 d0).id then setFields r (overlay r0 d0) else r) =
      expectedRow ((i0, d0) :: rest) j r
    by_cases hji : i0 = j
    · subst hji
      rw [hr0] at hr
      injection hr with hr
      subst hr
      rw [if_pos (by rw [hb0id])]
      unfold expectedRow
      rw [editLookup_cons_self]
      apply updRow_not_matching
      intro b hb
      obtain ⟨p2, hp2mem, rp, hrp, rfl⟩ := mem_stagedUpdates df rest b hb
      have hp2id : p2.2.id = none := hid p2 (List.mem_cons_of_mem _ hp2mem)
      rw [show (overlay rp p2.2).id = Value.vint rp.id from by simp [overlay, hp2id]]
      intro hcontra
      have hrpid : rp.id = r0.id := by
        have := Value.vint.inj hcontra
        simpa [setFields] using this
      have hne : p2.1 ≠ i0 := by
        intro hpe
        rw [List.map_cons, List.nodup_cons] at hnd
        have hm : p2.1 ∈ rest.map Prod.fst := List.mem_map_of_mem Prod.fst hp2mem
        rw [hpe] at hm
        exact hnd.1 hm
      exact nodup_ids_ne df hids p2.1 i0 rp r0 hrp hr0 hne hrpid
    · have hne : r.id ≠ r0.id :=
        nodup_ids_ne df hids j i0 r r0 hr hr0 (fun hh => hji hh.symm)
      rw [if_neg (by rw [hb0id]; exact fun hh => hne (Value.vint.inj hh))]
      rw [ih (fun p2 h2 => hpos p2 (List.mem_cons_of_mem _ h2))
          (fun p2 h2 => hid p2 (List.mem_cons_of_mem _ h2))
          (by rw [List.map_cons, List.nodup_cons] at hnd; exact hnd.2) j r hr]
      unfold expectedRow
      rw [editLookup_cons_ne i0 j d0 rest hji]

/-- With every edit position in the snapshot, the staging loop succeeds and
stages exactly the overlays, in batch order. -/
theorem buildUpdateRows_ok_eq (df : List Row) :
    ∀ edits : List (Nat × Delta), (∀ p ∈ edits, (df[p.1]?).isSome) →
      buildUpdateRows df edits = .ok (stagedUpdates df edits) := by
  intro edits
  induction edits with
  | nil => intro _; rfl
  | cons p rest ih =>
    obtain ⟨i, d⟩ := p
    intro hval
    obtain ⟨r, hr⟩ := Option.isSome_iff_exists.mp (hval (i, d) (List.mem_cons_self _ _))
    unfold buildUpdateRows
    rw [hr]
    show (buildUpdateRows df rest).map (fun brs => overlay r d :: brs) = _
    rw [ih fun p2 h2 => hval p2 (List.mem_cons_of_mem _ h2)]
    show Except.ok (overlay r d :: stagedUpdates df rest) = _
    rw [show stagedUpdates df ((i, d) :: rest) = overlay r d :: stagedUpdates df rest from by
      unfold stagedUpdates
      rw [List.filterMap_cons, hr]
      rfl]

/-- Guarded form of `buildUpdateRows_ok_eq` for the whole edits phase. -/
theorem stageEdits_ok_eq (df : List Row) (ch : Changes)
    (hval : ∀ p ∈ ch.edited_rows, (df[p.1]?).isSome) :
    stageEdits df ch = .ok (stagedUpdates df ch.edited_rows) := by
  unfold stageEdits
  split
  · rename_i h
    rw [List.isEmpty_iff] at h
    rw [h]
    rfl
  · exact buildUpdateRows_ok_eq df ch.edited_rows hval

end LigaKampung

namespace LigaKampung

/-- A run of auto-assigning INSERTs appends its rows in batch order and
advances the sequence by their count. -/
theorem runInserts_auto : ∀ (bs : List BRow) (t : DB),
    (∀ b ∈ bs, b.id = Value.vnull) →
    runInserts bs t = (⟨t.rows ++ autoRows t.seq bs, t.seq + bs.length⟩, none) := by
  intro bs
  induction bs with
  | nil =>
    intro t _
    show (t, none) = _
    rw [show autoRows t.seq [] = [] from rfl]
    simp
  | cons b bs ih =>
    intro t hall
    have hb : b.id = Value.vnull := hall b (List.mem_cons_self _ _)
    show (match applyInsert t b with
      | .error e => (t, some e)
      | .ok t2 => runInserts bs t2) = _
    rw [show applyInsert t b = .ok ⟨t.rows ++ [mkRow (t.seq + 1) b], t.seq + 1⟩ from by
      unfold applyInsert
      rw [hb]]
    show runInserts bs ⟨t.rows ++ [mkRow (t.seq + 1) b], t.seq + 1⟩ = _
    rw [ih _ fun b2 h2 => hall b2 (List.mem_cons_of_mem _ h2)]
    rw [show autoRows t.seq (b :: bs) = mkRow (t.seq + 1) b :: autoRows (t.seq + 1) bs from rfl]
    simp only [Prod.mk.injEq, DB.mk.injEq, and_true]
    constructor
    · simp
    · push_cast [List.length_cons]
      ring

/-- Guarded form of `runInserts_auto` for the whole insert phase. -/
theorem insertPhase_auto (ch : Changes) (t : DB)
    (hall : ∀ d ∈ ch.added_rows, (resolveDelta d).id = Value.vnull) :
    insertPhase ch t =
      (⟨t.rows ++ autoRows t.seq (ch.added_rows.map resolveDelta),
        t.seq + (ch.added_rows.map resolveDelta).length⟩, none) := by
  unfold insertPhase
  split
  · rename_i h
    rw [List.isEmpty_iff] at h
    rw [h]
    show (t, none) = _
    rw [show ([] : List Delta).map resolveDelta = [] from rfl]
    rw [show autoRows t.seq [] = [] from rfl]
    simp
  · apply runInserts_auto
    intro b hb
    rw [List.mem_map] at hb
    obtain ⟨d, hd, hbd⟩ := hb
    rw [← hbd]
    exact hall d hd

/-- Every row an auto-assigning insert run appends has an id strictly above
the starting sequence value. -/
theorem autoRows_id_gt : ∀ (bs : List BRow) (seq : Int), ∀ x ∈ autoRows seq bs, seq < x.id := by
  intro bs
  induction bs with
  | nil =>
    intro seq x hx
    cases hx
  | cons b bs ih =>
    intro seq x hx
    rw [show autoRows seq (b :: bs) = mkRow (seq + 1) b :: autoRows (seq + 1) bs from rfl] at hx
    rcases List.mem_cons.mp hx with h | h
    · rw [h]
      show seq < seq + 1
      omega
    · have := ih (seq + 1) x h
      omega

/-- Whether some staged delete's resolved id hits the row `x`. -/
def hitByDelete (df : List Row) (is : List Nat) (x : Row) : Bool :=
  is.any fun i =>
    match df[i]? with
    | some r => r.id == x.id
    | none => false

/-- A valid delete run filters the pending rows by the resolved ids. -/
theorem runDeletes_filter (df : List Row) :
    ∀ (is : List Nat) (t : DB), (∀ i ∈ is, (df[i]?).isSome) →
      runDeletes df is t =
        (⟨t.rows.filter (fun x => !hitByDelete df is x), t.seq⟩, none) := by
  intro is
  induction is with
  | nil =>
    intro t _
    show (t, none) = _
    rw [show List.filter (fun x => !hitByDelete df [] x) t.rows = t.rows from
      List.filter_eq_self.mpr fun a _ => rfl]
  | cons i is ih =>
    intro t hval
    obtain ⟨r, hr⟩ := Option.isSome_iff_exists.mp (hval i (List.mem_cons_self _ _))
    rw [show runDeletes df (i :: is) t = runDeletes df is ⟨applyDelete r.id t.rows, t.seq⟩ from by
      simp [runDeletes, hr]]
    rw [ih _ fun i2 h2 => hval i2 (List.mem_cons_of_mem _ h2)]
    unfold applyDelete
    rw [List.filter_filter]
    have hpt : ∀ x ∈ t.rows,
        ((!hitByDelete df is x) && (x.id != r.id)) = !hitByDelete df (i :: is) x := by
      intro x _
      have hcons : hitByDelete df (i :: is) x = ((r.id == x.id) || hitByDelete df is x) := by
        unfold hitByDelete
        rw [List.any_cons, hr]
      rw [hcons, Bool.not_or]
      by_cases h : x.id = r.id
      · rw [h, bne_self_eq_false, Bool.and_false, beq_self_eq_true, Bool.not_true, Bool.false_and]
      · have h1 : (x.id != r.id) = true := bne_iff_ne.mpr h
        have h2 : (r.id == x.id) = false := beq_eq_false_iff_ne.mpr fun hh => h hh.symm
        rw [h1, h2, Bool.and_true, Bool.not_false, Bool.true_and]
    rw [List.filter_congr hpt]

/-- Guarded form of `runDeletes_filter` for the whole delete phase. -/
theorem deletePhase_filter (df : List Row) (ch : Changes) (t : DB)
    (hval : ∀ i ∈ ch.deleted_rows, (df[i]?).isSome) :
    deletePhase df ch t =
      (⟨t.rows.filter (fun x => !hitByDelete df ch.deleted_rows x), t.seq⟩, none) := by
  unfold deletePhase
  split
  · rename_i h
    rw [List.isEmpty_iff] at h
    rw [h]
    show (t, none) = _
    rw [show List.filter (fun x => !hitByDelete df [] x) t.rows = t.rows from
      List.filter_eq_self.mpr fun a _ => rfl]
  · exact runDeletes_filter df ch.deleted_rows t hval

/-- No staged delete hits a row whose id lies above every snapshot id. -/
theorem hitByDelete_fresh (df : List Row) (is : List Nat) (x : Row) (seq : Int)
    (hwfd : ∀ r ∈ df, r.id ≤ seq) (hgt : seq < x.id) :
    hitByDelete df is x = false := by
  unfold hitByDelete
  rw [List.any_eq_false]
  intro i _
  cases hr : df[i]? with
  | none => simp
  | some r =>
    show ¬ (r.id == x.id) = true
    have := hwfd r (List.getElem?_mem hr)
    simp only [beq_iff_eq]
    omega

/-- For a row carrying the id of the snapshot row at position `j`, the
staged deletes hit it exactly when the batch deletes position `j`. -/
theorem hitByDelete_iff_mem (df : List Row) (hids : (df.map Row.id).Nodup)
    (is : List Nat) (hval : ∀ i ∈ is, (df[i]?).isSome)
    (j : Nat) (r : Row) (hj : df[j]? = some r) (x : Row) (hx : x.id = r.id) :
    hitByDelete df is x = true ↔ j ∈ is := by
  unfold hitByDelete
  rw [List.any_eq_true]
  constructor
  · rintro ⟨i, hi, hp⟩
    obtain ⟨ri, hri⟩ := Option.isSome_iff_exists.mp (hval i hi)
    rw [hri] at hp
    have hpe : ri.id = x.id := beq_iff_eq.mp hp
    by_cases hij : i = j
    · exact hij ▸ hi
    · exfalso
      exact nodup_ids_ne df hids i j ri r hri hj hij (by rw [hpe, hx])
  · intro hjmem
    refine ⟨j, hjmem, ?_⟩
    show (match df[j]? with
      | some r => r.id == x.id
      | none => false) = true
    rw [hj]
    show (r.id == x.id) = true
    rw [hx]
    exact beq_self_eq_true r.id

end LigaKampung

namespace LigaKampung

/-- Walking the table: updating every row pointwise and then filtering out
the deleted ids is the positional pass `specSurvivors`. -/
theorem survivors_assemble (t : DB) (ch : Changes)
    (hids : (t.rows.map Row.id).Nodup)
    (heditsPos : ∀ p ∈ ch.edited_rows, (t.rows[p.1]?).isSome)
    (heditsId : ∀ p ∈ ch.edited_rows, p.2.id = none)
    (heditsNd : (ch.edited_rows.map Prod.fst).Nodup)
    (hdels : ∀ i ∈ ch.deleted_rows, (t.rows[i]?).isSome) :
    ∀ (rs : List Row) (j : Nat), (∀ k : Nat, rs[k]? = t.rows[j + k]?) →
      (rs.map (updRow (stagedUpdates t.rows ch.edited_rows))).filter
          (fun x => !hitByDelete t.rows ch.deleted_rows x) =
        specSurvivors ch j rs := by
  intro rs
  induction rs with
  | nil => intro j _; rfl
  | cons r rs2 ih =>
    intro j hsuffix
    have hr : t.rows[j]? = some r := by
      have h0 := hsuffix 0
      simp only [List.getElem?_cons_zero, Nat.add_zero] at h0
      exact h0.symm
    have hsuffix2 : ∀ k : Nat, rs2[k]? = t.rows[(j + 1) + k]? := by
      intro k
      have h1 := hsuffix (k + 1)
      simp only [List.getElem?_cons_succ] at h1
      rw [h1]
      congr 1
      omega
    have hupd : updRow (stagedUpdates t.rows ch.edited_rows) r =
        expectedRow ch.edited_rows j r :=
      updRow_expected t.rows hids ch.edited_rows heditsPos heditsId heditsNd j r hr
    have hhit : hitByDelete t.rows ch.deleted_rows (expectedRow ch.edited_rows j r) = true ↔
        j ∈ ch.deleted_rows :=
      hitByDelete_iff_mem t.rows hids ch.deleted_rows hdels j r hr _
        (expectedRow_id ch.edited_rows j r)
    rw [List.map_cons, List.filter_cons, hupd]
    by_cases hjd : j ∈ ch.deleted_rows
    · have hb : hitByDelete t.rows ch.deleted_rows (expectedRow ch.edited_rows j r) = true :=
        hhit.mpr hjd
      rw [hb]
      rw [if_neg (by decide)]
      show (rs2.map (updRow (stagedUpdates t.rows ch.edited_rows))).filter
          (fun x => !hitByDelete t.rows ch.deleted_rows x) =
        if j ∈ ch.deleted_rows then specSurvivors ch (j + 1) rs2
        else expectedRow ch.edited_rows j r :: specSurvivors ch (j + 1) rs2
      rw [if_pos hjd]
      exact ih (j + 1) hsuffix2
    · have hb : hitByDelete t.rows ch.deleted_rows (expectedRow ch.edited_rows j r) = false := by
        cases hbb : hitByDelete t.rows ch.deleted_rows (expectedRow ch.edited_rows j r) with
        | true => exact absurd (hhit.mp hbb) hjd
        | false => rfl
      rw [hb]
      rw [if_pos (by decide)]
      show expectedRow ch.edited_rows j r ::
          (rs2.map (updRow (stagedUpdates t.rows ch.edited_rows))).filter
            (fun x => !hitByDelete t.rows ch.deleted_rows x) =
        if j ∈ ch.deleted_rows then specSurvivors ch (j + 1) rs2
        else expectedRow ch.edited_rows j r :: specSurvivors ch (j + 1) rs2
      rw [if_neg hjd]
      rw [ih (j + 1) hsuffix2]

/-- C8: for a snapshot equal to the current table state and a well-formed
batch over it (edit and delete positions inside the snapshot, edit partials
without id, positionally distinct edits, inserts without explicit id, over a
table with pairwise-distinct ids bounded by the sequence), the Reconciler
succeeds and the committed table — which re-reading via the Reader returns
in full — is exactly the positional pass `specSurvivors` (each edited row
rewritten once, each deleted position's row removed, all other rows
unchanged) followed by exactly the batch's inserted rows in order: every
staged operation is reflected exactly once and no extraneous row exists. -/
theorem reconciler_round_trip (t : DB) (ch : Changes)
    (hids : (t.rows.map Row.id).Nodup)
    (hwf : t.wf)
    (heditsPos : ∀ p ∈ ch.edited_rows, (t.rows[p.1]?).isSome)
    (heditsId : ∀ p ∈ ch.edited_rows, p.2.id = none)
    (heditsNd : (ch.edited_rows.map Prod.fst).Nodup)
    (hdels : ∀ i ∈ ch.deleted_rows, (t.rows[i]?).isSome)
    (hadds : ∀ d ∈ ch.added_rows, (resolveDelta d).id = Value.vnull) :
    update_data t.rows ch (Conn.fresh t) =
      (Conn.fresh ⟨specSurvivors ch 0 t.rows ++
          autoRows t.seq (ch.added_rows.map resolveDelta),
        t.seq + (ch.added_rows.map resolveDelta).length⟩, none) ∧
    load_data (some ⟨specSurvivors ch 0 t.rows ++
          autoRows t.seq (ch.added_rows.map resolveDelta),
        t.seq + (ch.added_rows.map resolveDelta).length⟩) =
      some ⟨score_card_columns,
        specSurvivors ch 0 t.rows ++ autoRows t.seq (ch.added_rows.map resolveDelta)⟩ := by
  have hok := stageEdits_ok_eq t.rows ch heditsPos
  have hu1 : update_data t.rows ch (Conn.fresh t) =
      match insertPhase ch
          ⟨applyUpdates (stagedUpdates t.rows ch.edited_rows) t.rows, t.seq⟩ with
      | (t2, some e) => ({ Conn.fresh t with pending := t2 }, some e)
      | (t2, none) =>
        match deletePhase t.rows ch t2 with
        | (t3, some e) => ({ Conn.fresh t with pending := t3 }, some e)
        | (t3, none) => (⟨t3, t3⟩, none) :=
    update_data_ok t.rows ch (Conn.fresh t) _ hok
  rw [insertPhase_auto ch
    ⟨applyUpdates (stagedUpdates t.rows ch.edited_rows) t.rows, t.seq⟩ hadds] at hu1
  have hu2 : update_data t.rows ch (Conn.fresh t) =
      match deletePhase t.rows ch
          ⟨applyUpdates (stagedUpdates t.rows ch.edited_rows) t.rows ++
             autoRows t.seq (ch.added_rows.map resolveDelta),
           t.seq + (ch.added_rows.map resolveDelta).length⟩ with
      | (t3, some e) => ({ Conn.fresh t with pending := t3 }, some e)
      | (t3, none) => ((⟨t3, t3⟩ : Conn), none) := hu1
  rw [deletePhase_filter t.rows ch
    ⟨applyUpdates (stagedUpdates t.rows ch.edited_rows) t.rows ++
       autoRows t.seq (ch.added_rows.map resolveDelta),
     t.seq + (ch.added_rows.map resolveDelta).length⟩ hdels] at hu2
  have hfilter : (applyUpdates (stagedUpdates t.rows ch.edited_rows) t.rows ++
        autoRows t.seq (ch.added_rows.map resolveDelta)).filter
          (fun x => !hitByDelete t.rows ch.deleted_rows x) =
      specSurvivors ch 0 t.rows ++ autoRows t.seq (ch.added_rows.map resolveDelta) := by
    rw [List.filter_append]
    congr 1
    · rw [applyUpdates_eq_map]
      exact survivors_assemble t ch hids heditsPos heditsId heditsNd hdels t.rows 0
        fun k => by rw [Nat.zero_add]
    · refine List.filter_eq_self.mpr fun x hx => ?_
      rw [hitByDelete_fresh t.rows ch.deleted_rows x t.seq hwf
        (autoRows_id_gt (ch.added_rows.map resolveDelta) t.seq x hx)]
      rfl
  constructor
  · have hu3 : update_data t.rows ch (Conn.fresh t) =
        (Conn.fresh ⟨(applyUpdates (stagedUpdates t.rows ch.edited_rows) t.rows ++
            autoRows t.seq (ch.added_rows.map resolveDelta)).filter
              (fun x => !hitByDelete t.rows ch.deleted_rows x),
          t.seq + (ch.added_rows.map resolveDelta).length⟩, none) := hu2
    rw [hfilter] at hu3
    exact hu3
  · rfl

end LigaKampung

namespace LigaKampung

/-- A two-row table (ids 1, 2; sequence 2) for the round-trip witness. -/
def dbAB : DB := ⟨[rowA, rowB], 2⟩

/-- A full batch over `dbAB`: edit position 0, add one row, delete position 1. -/
def chW : Changes := ⟨[(0, { total_tops := some (Value.vint 7) })], [dNew], [1]⟩

/-- Witness for C8: the mixed batch commits to exactly the expected table
(row 1 edited, row 2 gone, one fresh insert appended), which the Reader
returns in full. -/
theorem reconciler_round_trip_witness :
    update_data dbAB.rows chW (Conn.fresh dbAB) =
      (Conn.fresh ⟨specSurvivors chW 0 dbAB.rows ++
          autoRows dbAB.seq (chW.added_rows.map resolveDelta),
        dbAB.seq + (chW.added_rows.map resolveDelta).length⟩, none) ∧
    load_data (some ⟨specSurvivors chW 0 dbAB.rows ++
          autoRows dbAB.seq (chW.added_rows.map resolveDelta),
        dbAB.seq + (chW.added_rows.map resolveDelta).length⟩) =
      some ⟨score_card_columns,
        specSurvivors chW 0 dbAB.rows ++ autoRows dbAB.seq (chW.added_rows.map resolveDelta)⟩ :=
  reconciler_round_trip dbAB chW (by decide) (by decide) (by decide) (by decide)
    (by decide) (by decide) (by decide)

end LigaKampung
